import Mathlib

/-!
Shallow embedding of the goofy 6-digit hash ID generator (src/goofy.py) and
proofs about it.

Modelling choices:
* A Python `str` is modelled as a Lean `String` (a sequence of Unicode scalar
  values); a Python `bytes` value is a `List Nat` with every element < 256.
* `s.encode('utf-8')` is modelled by `utf8Encode`, the standard UTF-8
  encoding of each scalar value written with division/modulus arithmetic
  (equal to the bit-shift formulation).
* `bytes.decode('utf-8')` succeeding is modelled by the decidable predicate
  `validUtf8`, the strict UTF-8 acceptance table (rejecting overlong forms,
  surrogate code points and values above U+10FFFF), which is exactly the set
  of byte strings CPython's strict utf-8 codec accepts.
* The 64-bit integer arithmetic of the hash (`h ^= byte`,
  `h = (h * PRIME64) & MASK64`) is modelled on `Nat` with `^^^`, `*` and
  `&&&` against the 64-bit mask, exactly as the source writes it.
* The `for i in range(len(truncated) - 1, -1, -1)` loop of `truncate_utf8`
  is modelled by the fuel-indexed function `scanBack t i`, which inspects
  indices i-1, i-2, ..., 0 in that order.
* Python's f-string `f"{h % 1_000_000:06d}"` on a value below 1,000,000 is
  the 6-character zero-padded decimal rendering, modelled by `sixDigits`;
  output strings are modelled as `List Char`.
-/

/-- `MAX_BYTES = 32` from src/goofy.py. -/
def MAX_BYTES : Nat := 32

/-- `OFFSET64 = 1469598103934665603` from src/goofy.py (the initial hash
accumulator value). -/
def OFFSET64 : Nat := 1469598103934665603

/-- `PRIME64 = 1099511628211` from src/goofy.py. -/
def PRIME64 : Nat := 1099511628211

/-- `MASK64 = 0xFFFFFFFFFFFFFFFF` from src/goofy.py. -/
def MASK64 : Nat := 0xFFFFFFFFFFFFFFFF

/-- UTF-8 encoding of a single Unicode scalar value, as a list of byte
values.  Models the per-character behaviour of Python's `str.encode('utf-8')`
(arithmetic formulation of the standard 1/2/3/4-byte patterns). -/
def utf8EncodeChar (c : Char) : List Nat :=
  let n := c.toNat
  if n < 0x80 then [n]
  else if n < 0x800 then [0xC0 + n / 0x40, 0x80 + n % 0x40]
  else if n < 0x10000 then
    [0xE0 + n / 0x1000, 0x80 + (n / 0x40) % 0x40, 0x80 + n % 0x40]
  else
    [0xF0 + n / 0x40000, 0x80 + (n / 0x1000) % 0x40,
     0x80 + (n / 0x40) % 0x40, 0x80 + n % 0x40]

/-- Models `s.encode('utf-8')`: the concatenation of the UTF-8 encodings of
the characters of `s`. -/
def utf8Encode (s : String) : List Nat :=
  (s.data.map utf8EncodeChar).flatten

/-- State of the strict UTF-8 decoding automaton: `none` is the error state;
`some (k, lo, hi)` means `k` continuation bytes are still expected, the next
one in the range `lo..hi` (continuation bytes after the first are always
80–BF). -/
def utf8Step (st : Option (Nat × Nat × Nat)) (b : Nat) : Option (Nat × Nat × Nat) :=
  match st with
  | none => none
  | some (k, lo, hi) =>
    if k = 0 then
      if b ≤ 0x7F then some (0, 0x80, 0xBF)
      else if 0xC2 ≤ b ∧ b ≤ 0xDF then some (1, 0x80, 0xBF)
      else if 0xE0 ≤ b ∧ b ≤ 0xEF then
        some (2, if b = 0xE0 then 0xA0 else 0x80, if b = 0xED then 0x9F else 0xBF)
      else if 0xF0 ≤ b ∧ b ≤ 0xF4 then
        some (3, if b = 0xF0 then 0x90 else 0x80, if b = 0xF4 then 0x8F else 0xBF)
      else none
    else
      if lo ≤ b ∧ b ≤ hi then some (k - 1, 0x80, 0xBF) else none

/-- The start (and boundary) state of the UTF-8 automaton. -/
def utf8Start : Option (Nat × Nat × Nat) := some (0, 0x80, 0xBF)

/-- Models "`bs.decode('utf-8')` succeeds" for a byte string `bs`: the strict
UTF-8 acceptance table, as a deterministic automaton.  Single bytes 00–7F;
C2–DF followed by one continuation byte (80–BF); E0/E1–EC/ED/EE–EF with the
first continuation restricted to A0–BF after E0 and 80–9F after ED (excluding
overlong forms and surrogates); F0/F1–F3/F4 with the first continuation
restricted to 90–BF after F0 and 80–8F after F4 (excluding overlong forms and
values beyond U+10FFFF).  Everything else is rejected, and the input must end
on a character boundary. -/
def validUtf8 (l : List Nat) : Bool :=
  match l.foldl utf8Step utf8Start with
  | some (0, _, _) => true
  | _ => false

/-- The backward scan of `truncate_utf8` (the
`for i in range(len(truncated) - 1, -1, -1)` loop): `scanBack t i` inspects
indices i-1, i-2, ..., 0 of `t`.  At each index whose byte is not a UTF-8
continuation byte (`(t[i] & 0b11000000) != 0b10000000`) it tries to decode
`t[:i+1]`; on success it returns that prefix, otherwise it keeps walking
backwards.  If no index succeeds it returns the empty byte string. -/
def scanBack (t : List Nat) : Nat → List Nat
  | 0 => []
  | i + 1 =>
    if (t.getD i 0) &&& 0xC0 ≠ 0x80 then
      if validUtf8 (t.take (i + 1)) then t.take (i + 1) else scanBack t i
    else scanBack t i

/-- `truncate_utf8` from src/goofy.py: encode the string; if the encoding
fits in `max_bytes` return it as is, otherwise run the backward scan on the
first `max_bytes` bytes. -/
def truncate_utf8 (s : String) (max_bytes : Nat) : List Nat :=
  let encoded := utf8Encode s
  if encoded.length ≤ max_bytes then encoded
  else
    let truncated := encoded.take max_bytes
    scanBack truncated max_bytes

/-- The FNV-1a style loop of `six_digit_id`:
`h = OFFSET64; for byte in bs: h ^= byte; h = (h * PRIME64) & MASK64`. -/
def fnv1a (bs : List Nat) : Nat :=
  bs.foldl (fun h b => ((h ^^^ b) * PRIME64) &&& MASK64) OFFSET64

/-- One decimal digit character: the units digit of `n` as an ASCII char. -/
def decimalDigit (n : Nat) : Char := Char.ofNat (48 + n % 10)

/-- Models `f"{n:06d}"` for `n < 1_000_000`: the 6-character zero-padded
decimal rendering of `n`. -/
def sixDigits (n : Nat) : List Char :=
  [decimalDigit (n / 100000), decimalDigit (n / 10000), decimalDigit (n / 1000),
   decimalDigit (n / 100), decimalDigit (n / 10), decimalDigit n]

/-- `six_digit_id` from src/goofy.py.  The output string is modelled as a
`List Char`; the spaced format is
`f"{result[0:2]} {result[2:4]} {result[4:6]}"`. -/
def six_digit_id (s : String) (spaced : Bool) : List Char :=
  let bytes_data := truncate_utf8 s MAX_BYTES
  let h := fnv1a bytes_data
  let result := sixDigits (h % 1000000)
  if spaced then
    result.take 2 ++ ' ' :: (result.drop 2).take 2 ++ ' ' :: (result.drop 4).take 2
  else result

/-- Property language for the spec's "exactly 6 ASCII digit characters". -/
def isSixDigitCode (l : List Char) : Bool :=
  match l with
  | [a, b, c, d, e, f] =>
    a.isDigit && b.isDigit && c.isDigit && d.isDigit && e.isDigit && f.isDigit
  | _ => false

/-- Property language for the spec's "exactly 8 characters matching pattern
`DD DD DD`". -/
def isSpacedCode (l : List Char) : Bool :=
  match l with
  | [a, b, g1, c, d, g2, e, f] =>
    a.isDigit && b.isDigit && (g1 == ' ') && c.isDigit && d.isDigit
      && (g2 == ' ') && e.isDigit && f.isDigit
  | _ => false

/-! ### Helper lemmas -/

theorem and_MASK64 (x : Nat) : x &&& MASK64 = x % 2 ^ 64 := by
  have h : MASK64 = 2 ^ 64 - 1 := by norm_num [MASK64]
  rw [h, Nat.and_pow_two_sub_one_eq_mod]

theorem decimalDigit_spec (n : Nat) :
    (decimalDigit n).isDigit = true ∧ decimalDigit n ≠ ' ' := by
  unfold decimalDigit
  have h : n % 10 < 10 := Nat.mod_lt _ (by omega)
  generalize hg : n % 10 = m at h ⊢
  interval_cases m <;> exact ⟨by decide, by decide⟩

theorem utf8Step_start_ascii (b : Nat) (h : b ≤ 0x7F) :
    utf8Step utf8Start b = utf8Start := by
  simp only [utf8Step, utf8Start]
  rw [if_pos trivial, if_pos h]

theorem utf8Step_start_two (b : Nat) (h1 : 0xC2 ≤ b) (h2 : b ≤ 0xDF) :
    utf8Step utf8Start b = some (1, 0x80, 0xBF) := by
  simp only [utf8Step, utf8Start]
  rw [if_pos trivial, if_neg (by omega), if_pos ⟨h1, h2⟩]

theorem utf8Step_start_three (b : Nat) (h1 : 0xE0 ≤ b) (h2 : b ≤ 0xEF) :
    utf8Step utf8Start b
      = some (2, if b = 0xE0 then 0xA0 else 0x80, if b = 0xED then 0x9F else 0xBF) := by
  simp only [utf8Step, utf8Start]
  rw [if_pos trivial, if_neg (by omega), if_neg (by omega), if_pos ⟨h1, h2⟩]

theorem utf8Step_start_four (b : Nat) (h1 : 0xF0 ≤ b) (h2 : b ≤ 0xF4) :
    utf8Step utf8Start b
      = some (3, if b = 0xF0 then 0x90 else 0x80, if b = 0xF4 then 0x8F else 0xBF) := by
  simp only [utf8Step, utf8Start]
  rw [if_pos trivial, if_neg (by omega), if_neg (by omega), if_neg (by omega), if_pos ⟨h1, h2⟩]

theorem utf8Step_cont (k lo hi b : Nat) (hk : k ≠ 0) (h : lo ≤ b ∧ b ≤ hi) :
    utf8Step (some (k, lo, hi)) b = some (k - 1, 0x80, 0xBF) := by
  simp only [utf8Step]
  rw [if_neg hk, if_pos h]


theorem utf8Step_encodeChar (c : Char) :
    (utf8EncodeChar c).foldl utf8Step utf8Start = utf8Start := by
  have hv : c.toNat < 0xd800 ∨ (0xdfff < c.toNat ∧ c.toNat < 0x110000) := c.valid
  simp only [utf8EncodeChar]
  generalize hg : c.toNat = n at hv ⊢
  by_cases h1 : n < 0x80
  · rw [if_pos h1]
    simp only [List.foldl_cons, List.foldl_nil]
    exact utf8Step_start_ascii n (by omega)
  · rw [if_neg h1]
    by_cases h2 : n < 0x800
    · rw [if_pos h2]
      simp only [List.foldl_cons, List.foldl_nil]
      rw [utf8Step_start_two _ (by omega) (by omega)]
      rw [utf8Step_cont 1 _ _ _ (by omega) ⟨by omega, by omega⟩]
      rfl
    · rw [if_neg h2]
      by_cases h3 : n < 0x10000
      · rw [if_pos h3]
        simp only [List.foldl_cons, List.foldl_nil]
        rw [utf8Step_start_three _ (by omega) (by omega)]
        rw [utf8Step_cont 2 _ _ _ (by omega) (by constructor <;> split_ifs <;> omega)]
        rw [utf8Step_cont (2 - 1) _ _ _ (by omega) ⟨by omega, by omega⟩]
        rfl
      · rw [if_neg h3]
        simp only [List.foldl_cons, List.foldl_nil]
        rw [utf8Step_start_four _ (by omega) (by omega)]
        rw [utf8Step_cont 3 _ _ _ (by omega) (by constructor <;> split_ifs <;> omega)]
        rw [utf8Step_cont (3 - 1) _ _ _ (by omega) ⟨by omega, by omega⟩]
        rw [utf8Step_cont (3 - 1 - 1) _ _ _ (by omega) ⟨by omega, by omega⟩]
        rfl

theorem foldl_utf8Step_flattenMap (l : List Char) :
    ((l.map utf8EncodeChar).flatten).foldl utf8Step utf8Start = utf8Start := by
  induction l with
  | nil => rfl
  | cons c cs ih =>
    simp only [List.map_cons, List.flatten_cons, List.foldl_append]
    rw [utf8Step_encodeChar, ih]

theorem validUtf8_utf8Encode (s : String) : validUtf8 (utf8Encode s) = true := by
  unfold validUtf8 utf8Encode
  rw [foldl_utf8Step_flattenMap]
  rfl

theorem scanBack_valid (t : List Nat) (i : Nat) : validUtf8 (scanBack t i) = true := by
  induction i with
  | zero => rfl
  | succ i ih =>
    rw [scanBack]
    split_ifs with hcond hvalid
    · exact hvalid
    · exact ih
    · exact ih

theorem scanBack_shape (t : List Nat) (i : Nat) :
    ∃ m, m ≤ i ∧ scanBack t i = t.take m ∧
      (m = 0 ∨ (t.getD (m - 1) 0 &&& 0xC0 ≠ 0x80 ∧ validUtf8 (t.take m) = true)) := by
  induction i with
  | zero => exact ⟨0, Nat.le_refl 0, rfl, Or.inl rfl⟩
  | succ i ih =>
    rw [scanBack]
    split_ifs with hcond hvalid
    · exact ⟨i + 1, Nat.le_refl _, rfl, Or.inr ⟨hcond, hvalid⟩⟩
    · obtain ⟨m, hm, he, hp⟩ := ih
      exact ⟨m, by omega, he, hp⟩
    · obtain ⟨m, hm, he, hp⟩ := ih
      exact ⟨m, by omega, he, hp⟩

theorem scanBack_maximal (t : List Nat) (k : Nat) (hk : 0 < k) (hkt : k ≤ t.length)
    (hnc : t.getD (k - 1) 0 &&& 0xC0 ≠ 0x80)
    (hval : validUtf8 (t.take k) = true) :
    ∀ i, k ≤ i → k ≤ (scanBack t i).length := by
  intro i
  induction i with
  | zero => intro h; omega
  | succ i ih =>
    intro hki
    rw [scanBack]
    split_ifs with hcond hvalid
    · rw [List.length_take]; omega
    · rcases Nat.lt_or_ge k (i + 1) with h | h
      · exact ih (by omega)
      · have hk1 : k = i + 1 := by omega
        rw [hk1] at hval
        exact absurd hval hvalid
    · rcases Nat.lt_or_ge k (i + 1) with h | h
      · exact ih (by omega)
      · have hk1 : k = i + 1 := by omega
        rw [hk1, Nat.add_sub_cancel] at hnc
        exact absurd hnc hcond

theorem scanBack_all_fail (t : List Nat) :
    ∀ i, (∀ j, j < i → ¬(t.getD j 0 &&& 0xC0 ≠ 0x80 ∧ validUtf8 (t.take (j + 1)) = true)) →
      scanBack t i = [] := by
  intro i
  induction i with
  | zero => intro _; rfl
  | succ i ih =>
    intro h
    rw [scanBack]
    split_ifs with hcond hvalid
    · exact absurd ⟨hcond, hvalid⟩ (h i (by omega))
    · exact ih (fun j hj => h j (by omega))
    · exact ih (fun j hj => h j (by omega))

theorem truncate_utf8_of_le (s : String) (mb : Nat) (h : (utf8Encode s).length ≤ mb) :
    truncate_utf8 s mb = utf8Encode s := by
  simp only [truncate_utf8]
  rw [if_pos h]

theorem truncate_utf8_of_gt (s : String) (mb : Nat) (h : ¬(utf8Encode s).length ≤ mb) :
    truncate_utf8 s mb = scanBack ((utf8Encode s).take mb) mb := by
  simp only [truncate_utf8]
  rw [if_neg h]

theorem fnv1a_append_byte (bs : List Nat) (b : Nat) :
    fnv1a (bs ++ [b]) = ((fnv1a bs ^^^ b) * PRIME64) % 2 ^ 64 := by
  unfold fnv1a
  rw [List.foldl_append]
  simp only [List.foldl_cons, List.foldl_nil]
  rw [and_MASK64]

theorem foldl_mask_lt (bs : List Nat) :
    ∀ a, a < 2 ^ 64 → bs.foldl (fun h b => ((h ^^^ b) * PRIME64) &&& MASK64) a < 2 ^ 64 := by
  induction bs with
  | nil => intro a ha; simpa using ha
  | cons b bs ih =>
    intro a ha
    simp only [List.foldl_cons]
    apply ih
    rw [and_MASK64]
    exact Nat.mod_lt _ (by norm_num)

theorem fnv1a_lt (bs : List Nat) : fnv1a bs < 2 ^ 64 := by
  unfold fnv1a
  exact foldl_mask_lt bs OFFSET64 (by norm_num [OFFSET64])

theorem decimalDigit_isDigit (n : Nat) : (decimalDigit n).isDigit = true :=
  (decimalDigit_spec n).1

theorem decimalDigit_bne_space (n : Nat) : (decimalDigit n != ' ') = true := by
  have h := (decimalDigit_spec n).2
  simpa [bne_iff_ne] using h

theorem truncate_utf8_valid (s : String) (mb : Nat) :
    validUtf8 (truncate_utf8 s mb) = true := by
  by_cases h : (utf8Encode s).length ≤ mb
  · rw [truncate_utf8_of_le s mb h]
    exact validUtf8_utf8Encode s
  · rw [truncate_utf8_of_gt s mb h]
    exact scanBack_valid _ _

/-! ### Claim theorems -/

/-- C3 (evaluation at the failing input): the hash accumulator of
`six_digit_id` starts at `1469598103934665603`, which is NOT the standard
FNV-1a 64-bit offset basis `14695981039346656037` (`0xcbf29ce484222325`) —
the final digit 7 has been dropped — so `six_digit_id ""` renders
`1469598103934665603 % 1000000 = 665603` rather than the `656037` the
standard basis would give.  The multiplier is the standard prime. -/
theorem fnv_offset_basis_nonstandard :
    fnv1a [] = 1469598103934665603 ∧
    (1469598103934665603 : Nat) ≠ 14695981039346656037 ∧
    PRIME64 = 1099511628211 ∧
    six_digit_id "" false = ['6', '6', '5', '6', '0', '3'] :=
  ⟨rfl, by decide, rfl, by decide⟩

/-- C4: the four known vectors from the spec, all at the default
`MAX_BYTES = 32`:
`six_digit_id "hello world!" spaced = "25 91 44"`, `"hello world!!"` gives
`"53 22 67"`, `"hello world!!!"` gives `"09 06 22"`, and the unspaced form
of `"hello world!"` is `"259144"`. -/
theorem known_vectors :
    six_digit_id "hello world!" true = ['2', '5', ' ', '9', '1', ' ', '4', '4'] ∧
    six_digit_id "hello world!!" true = ['5', '3', ' ', '2', '2', ' ', '6', '7'] ∧
    six_digit_id "hello world!!!" true = ['0', '9', ' ', '0', '6', ' ', '2', '2'] ∧
    six_digit_id "hello world!" false = ['2', '5', '9', '1', '4', '4'] :=
  ⟨by decide, by decide, by decide, by decide⟩

/-- C5: the per-byte accumulator update is XOR with the byte then
multiplication by the prime kept to the low 64 bits (wrap-around modulo
`2 ^ 64`, never an overflow error — the accumulator always stays below
`2 ^ 64`); the empty byte sequence leaves the accumulator at the unmodified
offset basis, so `six_digit_id ""` is the fixed constant rendering of
`OFFSET64 % 1000000`, namely `"665603"`. -/
theorem fnv_step_and_empty :
    (∀ bs b, fnv1a (bs ++ [b]) = ((fnv1a bs ^^^ b) * PRIME64) % 2 ^ 64) ∧
    (∀ bs, fnv1a bs < 2 ^ 64) ∧
    fnv1a [] = OFFSET64 ∧
    six_digit_id "" false = sixDigits (OFFSET64 % 1000000) ∧
    six_digit_id "" false = ['6', '6', '5', '6', '0', '3'] :=
  ⟨fnv1a_append_byte, fnv1a_lt, rfl, rfl, by decide⟩

/-- C6: for every input string the byte prefix actually fed to the FNV loop
by `six_digit_id` — `truncate_utf8 s MAX_BYTES` — is valid UTF-8 (decodes
without error), so the truncation boundary never falls inside a multi-byte
code point. -/
theorem hashed_prefix_valid_utf8 (s : String) :
    validUtf8 (truncate_utf8 s MAX_BYTES) = true :=
  truncate_utf8_valid s MAX_BYTES

/-- C8: `six_digit_id` is a total function of its input: it is defined (as a
Lean function, hence total and pure) for every valid Unicode string
including the empty string, and always returns a well-formed result of
length 8 (spaced) or 6 (unspaced) — there is no error state. -/
theorem six_digit_id_total (s : String) (spaced : Bool) :
    (six_digit_id s spaced).length = if spaced then 8 else 6 := by
  cases spaced <;> simp [six_digit_id, sixDigits]

/-- C7: for every string, the unspaced output is exactly 6 ASCII digit
characters and the spaced output is exactly 8 characters matching the
pattern `DD DD DD` (digit pairs separated by single spaces). -/
theorem output_format_shape (s : String) :
    isSixDigitCode (six_digit_id s false) = true ∧
    isSpacedCode (six_digit_id s true) = true := by
  constructor
  · simp [six_digit_id, sixDigits, isSixDigitCode, decimalDigit_isDigit]
  · simp [six_digit_id, sixDigits, isSpacedCode, decimalDigit_isDigit]

/-- C10: the spaced output is the unspaced output with a single space
inserted after the 2nd and after the 4th character; equivalently, deleting
the spaces from the spaced output yields exactly the unspaced output. -/
theorem spaced_from_unspaced (s : String) :
    six_digit_id s true
      = (six_digit_id s false).take 2
          ++ ' ' :: ((six_digit_id s false).drop 2).take 2
          ++ ' ' :: ((six_digit_id s false).drop 4).take 2 ∧
    (six_digit_id s true).filter (fun c => c != ' ') = six_digit_id s false := by
  constructor
  · rfl
  · simp [six_digit_id, sixDigits, List.filter, decimalDigit_bne_space]

/-- C1 counterexample: the claim fails as stated at the boundary.  The
string of 30 `a`s followed by `é` encodes to exactly 32 bytes, and the same
string with `b` appended agrees with it on the first 32 bytes, yet the two
outputs differ: the 32-byte string is hashed whole, while the 33-byte string
is truncated to 32 bytes that end inside no character boundary the backward
scan will accept, so the scan drops back to the 30 `a`s. -/
theorem cross_length_stability_fails_at_32 :
    32 ≤ (utf8Encode "aaaaaaaaaaaaaaaaaaaaaaaaaaaaaaé").length ∧
    32 ≤ (utf8Encode "aaaaaaaaaaaaaaaaaaaaaaaaaaaaaaéb").length ∧
    (utf8Encode "aaaaaaaaaaaaaaaaaaaaaaaaaaaaaaé").take 32
      = (utf8Encode "aaaaaaaaaaaaaaaaaaaaaaaaaaaaaaéb").take 32 ∧
    six_digit_id "aaaaaaaaaaaaaaaaaaaaaaaaaaaaaaé" false
      ≠ six_digit_id "aaaaaaaaaaaaaaaaaaaaaaaaaaaaaaéb" false :=
  ⟨by decide, by decide, by decide, by decide⟩

/-- C1 (amended): cross-length stability holds for strings whose UTF-8
encodings are each strictly longer than 32 bytes: if they agree on their
first 32 bytes, `six_digit_id` gives identical output for both values of the
`spaced` flag. -/
theorem cross_length_stability_beyond_32 (s t : String) (f : Bool)
    (hs : 32 < (utf8Encode s).length) (ht : 32 < (utf8Encode t).length)
    (hst : (utf8Encode s).take 32 = (utf8Encode t).take 32) :
    six_digit_id s f = six_digit_id t f := by
  have h1 : truncate_utf8 s MAX_BYTES = truncate_utf8 t MAX_BYTES := by
    rw [truncate_utf8_of_gt s MAX_BYTES (by simp only [MAX_BYTES]; omega),
      truncate_utf8_of_gt t MAX_BYTES (by simp only [MAX_BYTES]; omega)]
    rw [show MAX_BYTES = 32 from rfl, hst]
  simp only [six_digit_id, h1]

/-- C1 witness: the amended theorem applied at 33 `a`s versus 32 `a`s
followed by `bb`. -/
theorem cross_length_stability_beyond_32_witness :
    32 < (utf8Encode "aaaaaaaaaaaaaaaaaaaaaaaaaaaaaaaaa").length ∧
    32 < (utf8Encode "aaaaaaaaaaaaaaaaaaaaaaaaaaaaaaaabb").length ∧
    (utf8Encode "aaaaaaaaaaaaaaaaaaaaaaaaaaaaaaaaa").take 32
      = (utf8Encode "aaaaaaaaaaaaaaaaaaaaaaaaaaaaaaaabb").take 32 ∧
    six_digit_id "aaaaaaaaaaaaaaaaaaaaaaaaaaaaaaaaa" true
      = six_digit_id "aaaaaaaaaaaaaaaaaaaaaaaaaaaaaaaabb" true :=
  ⟨by decide, by decide, by decide,
    cross_length_stability_beyond_32 _ _ true (by decide) (by decide) (by decide)⟩

/-- C2 counterexample: `truncate_utf8` does not return the longest valid
UTF-8 prefix within the byte budget.  For `"éé"` (bytes `C3 A9 C3 A9`) with
`max_bytes = 3`, the longest valid prefix of the encoding with length at
most 3 is `C3 A9` (two bytes), but the function returns the empty byte
string: the backward scan only ever re-decodes prefixes that end at a
non-continuation byte. -/
theorem truncate_not_longest_valid :
    truncate_utf8 "éé" 3 = [] ∧
    validUtf8 ((utf8Encode "éé").take 2) = true ∧
    (2 : Nat) ≤ 3 :=
  ⟨by decide, by decide, by decide⟩

/-- C2 (amended): an input whose encoding has at most `max_bytes` bytes is
returned in full, unmodified.  Otherwise the result is the longest prefix of
the first `max_bytes` bytes that is valid UTF-8 AND ends in a
non-continuation byte (top two bits of the last byte not `10`); the empty
byte string is returned when no nonempty such prefix exists.  Stated as:
the result is such a prefix, and any length `k` with both properties
satisfies `k ≤` the result's length. -/
theorem truncate_utf8_characterization (s : String) (mb : Nat) :
    ((utf8Encode s).length ≤ mb → truncate_utf8 s mb = utf8Encode s) ∧
    (mb < (utf8Encode s).length →
      (∃ m, m ≤ mb ∧ truncate_utf8 s mb = ((utf8Encode s).take mb).take m ∧
        validUtf8 (truncate_utf8 s mb) = true ∧
        (m = 0 ∨ ((utf8Encode s).take mb).getD (m - 1) 0 &&& 0xC0 ≠ 0x80)) ∧
      (∀ k, k ≤ mb → 0 < k →
        ((utf8Encode s).take mb).getD (k - 1) 0 &&& 0xC0 ≠ 0x80 →
        validUtf8 (((utf8Encode s).take mb).take k) = true →
        k ≤ (truncate_utf8 s mb).length)) := by
  constructor
  · exact truncate_utf8_of_le s mb
  · intro h
    have hgt : ¬(utf8Encode s).length ≤ mb := by omega
    rw [truncate_utf8_of_gt s mb hgt]
    constructor
    · obtain ⟨m, hm, he, hp⟩ := scanBack_shape ((utf8Encode s).take mb) mb
      exact ⟨m, hm, he, scanBack_valid _ _, hp.imp id And.left⟩
    · intro k hk hk0 hnc hval
      apply scanBack_maximal _ k hk0 ?_ hnc hval mb hk
      rw [List.length_take]
      omega

/-- C2 witness: the characterization applied at `"hello"` with budget 32
(short input returned whole) and at `"abcd"` with budget 3 (the full 3-byte
ASCII prefix is valid and ends at a non-continuation byte, so the result
keeps all 3 bytes). -/
theorem truncate_utf8_characterization_witness :
    truncate_utf8 "hello" 32 = utf8Encode "hello" ∧
    3 ≤ (truncate_utf8 "abcd" 3).length :=
  ⟨(truncate_utf8_characterization "hello" 32).1 (by decide),
    ((truncate_utf8_characterization "abcd" 3).2 (by decide)).2 3 (by decide)
      (by decide) (by decide) (by decide)⟩

/-- C9: when the encoding exceeds 32 bytes and the backward scan finds no
index whose byte is a non-continuation byte with a validly decodable prefix
— no valid boundary down to position 0 — `truncate_utf8` returns the empty
byte string (it does not fail and returns no invalid bytes), and
`six_digit_id` then hashes that empty sequence, giving the empty-input
result. -/
theorem truncate_fallback_empty (s : String) (f : Bool)
    (h1 : 32 < (utf8Encode s).length)
    (h2 : ∀ j, j < 32 →
      ¬(((utf8Encode s).take 32).getD j 0 &&& 0xC0 ≠ 0x80 ∧
        validUtf8 (((utf8Encode s).take 32).take (j + 1)) = true)) :
    truncate_utf8 s 32 = [] ∧ six_digit_id s f = six_digit_id "" f := by
  have ht : truncate_utf8 s 32 = [] := by
    rw [truncate_utf8_of_gt s 32 (by omega)]
    exact scanBack_all_fail _ 32 h2
  refine ⟨ht, ?_⟩
  have h0 : truncate_utf8 "" 32 = [] := rfl
  simp only [six_digit_id, MAX_BYTES, ht, h0]

/-- C9 witness: 17 copies of the two-byte character `é` (34 bytes).  The
first 32 bytes consist only of two-byte characters, every candidate prefix
ends either at a continuation byte or just after a lone lead byte, so the
scan exhausts all positions and returns the empty byte string. -/
theorem truncate_fallback_empty_witness :
    32 < (utf8Encode "ééééééééééééééééé").length ∧
    truncate_utf8 "ééééééééééééééééé" 32 = [] ∧
    six_digit_id "ééééééééééééééééé" true = six_digit_id "" true :=
  ⟨by decide,
    (truncate_fallback_empty "ééééééééééééééééé" true (by decide) (by decide)).1,
    (truncate_fallback_empty "ééééééééééééééééé" true (by decide) (by decide)).2⟩
